import Mathlib

/-!
Verification development for the salus secret-store daemon
(crates `salusd`, `libsalus`).

Shallow embedding conventions:
* Rust bytes (`u8`) are `Nat`; byte buffers (`Vec<u8>`, `&[u8]`) are `List Nat`.
* Fallible Rust code returns `Except` / `Option`; a Rust panic is modelled
  as a dedicated `panic` outcome (for `unlock`) or as `none` (for
  `SalusVal::from_bytes`).
* The redb tables are association lists; `redb` transactions commit per
  `write_value` call (db/mod.rs `write_value`: begin_write / insert / commit).
* `unlock_redb` (a mutex-guarded helper whose definition is not in the
  snapshot) is modelled, per the spec's concurrency section, as applying the
  transaction body to the database and propagating its error result; the
  mutex itself is invisible in this sequential embedding.
* AES-256-GCM (`RandomizedNonceKey` seal/open) is modelled as an ideal
  authenticated cipher: `aeadOpen key nonce ct` succeeds exactly when `ct`
  was produced by `aeadSeal` with the same key and nonce, and then returns
  the sealed plaintext.  Tag/ciphertext byte layout is idealized.
* The ssss Shamir crate (external dependency) is modelled from the spec:
  `combine` is total; with at least `threshold` distinct shares it returns
  the secret, otherwise garbage that differs from the secret.
-/

/-! ## Association-list tables (redb tables keyed by string) -/

def lookupA {α : Type} : List (String × α) → String → Option α
  | [], _ => none
  | (k, v) :: rest, key => if k = key then some v else lookupA rest key

def insertA {α : Type} : List (String × α) → String → α → List (String × α)
  | [], key, v => [(key, v)]
  | (k, w) :: rest, key, v =>
      if k = key then (key, v) :: rest else (k, w) :: insertA rest key v

/-! ## db/values/salus.rs : SalusVal -/

/-- `SalusVal` (db/values/salus.rs): a 12-byte nonce and ciphertext+tag. -/
structure SalusVal where
  nonce : List Nat
  ciphertext : List Nat
deriving DecidableEq

namespace SalusVal

/-- `SalusVal::from_bytes` (db/values/salus.rs lines 38-45).
The source slices `data[0..12]`, which panics when `data` is shorter than
12 bytes; the panic is modelled as `none`. -/
def from_bytes (data : List Nat) : Option SalusVal :=
  if 12 ≤ data.length then
    some { nonce := data.take 12, ciphertext := data.drop 12 }
  else
    none

/-- `SalusVal::as_bytes` (db/values/salus.rs lines 47-55): nonce then
ciphertext. -/
def as_bytes (v : SalusVal) : List Nat :=
  v.nonce ++ v.ciphertext

end SalusVal

/-! ## bincode primitives used for `ConfigVal` payloads

`ConfigVal` (db/values/config.rs) wraps the bincode standard encoding of a
primitive (`bool` or `u8`); we model a `ConfigVal` by its payload bytes. -/

/-- bincode standard encoding of a `bool`: one byte, 0 or 1. -/
def boolEncode (b : Bool) : List Nat :=
  [if b then 1 else 0]

/-- bincode standard decoding of a `bool` from a byte slice: the first byte
must be 0 or 1, otherwise the decode errors. -/
def boolDecode : List Nat → Option Bool
  | 0 :: _ => some false
  | 1 :: _ => some true
  | _ => none

/-- bincode standard encoding of a `u8`: the byte itself. -/
def u8Encode (n : Nat) : List Nat :=
  [n]

/-- bincode standard decoding of a `u8` from a byte slice. -/
def u8Decode : List Nat → Option Nat
  | b :: _ => some b
  | [] => none

/-! ## Ideal AEAD (aws-lc-rs AES-256-GCM RandomizedNonceKey) -/

/-- Ideal authenticated seal.  The returned "ciphertext+tag" is a symbolic
package that binds key, nonce and plaintext; `aeadOpen` inverts it exactly
when the key and nonce match. -/
def aeadSeal (key nonce pt : List Nat) : List Nat :=
  key.length :: nonce.length :: (key ++ nonce ++ pt)

/-- Ideal authenticated open: succeeds exactly on packages sealed with the
same key and nonce (`open_in_place` returns `Err` on authentication
failure). -/
def aeadOpen (key nonce ct : List Nat) : Option (List Nat) :=
  match ct with
  | kl :: nl :: rest =>
      if kl = key.length ∧ nl = nonce.length ∧
          rest.take key.length = key ∧
          (rest.drop key.length).take nonce.length = nonce then
        some ((rest.drop key.length).drop nonce.length)
      else
        none
  | _ => none

/-- The bytes of the literal `"CHECK_KEY"`. -/
def checkKeyBytes : List Nat :=
  [67, 72, 69, 67, 75, 95, 75, 69, 89]

/-! ## ssss Shamir split/combine (external crate, modelled from the spec) -/

/-- Modelled from the spec: a Shamir share token produced by `ssss::gen_shares`
(§4.1 "from a secret produce N share strings with threshold T").  The token
is symbolic: it records the secret it came from, the threshold, and its
index. -/
structure ShareTok where
  secret : List Nat
  threshold : Nat
  idx : Nat
deriving DecidableEq

namespace Ssss

/-- Modelled from the spec: `ssss::gen_shares(config, secret)` produces
`numShares` share tokens with the configured threshold (§4.1). -/
def gen_shares (numShares threshold : Nat) (secret : List Nat) : List ShareTok :=
  (List.range numShares).map (fun i => { secret := secret, threshold := threshold, idx := i })

/-- Modelled from the spec: `ssss::unlock(shares)` (§4.1 "combine").  With at
least `threshold` distinct shares it recovers the secret; with fewer it
"MUST still return bytes (not an error) and those bytes MUST differ from
the original secret"; the garbage is modelled as `0 :: secret`. -/
def unlock : List ShareTok → List Nat
  | [] => []
  | s :: rest =>
      if s.threshold ≤ (((s :: rest).map ShareTok.idx).dedup).length then
        s.secret
      else
        0 :: s.secret

end Ssss

/-- `libsalus::unlock_key` (libsalus/src/key/mod.rs lines 31-33): wraps
`ssss::unlock`.  Per the spec's §4.1 the combine step always returns bytes,
so the `Result` is always `Ok`. -/
def unlock_key (shares : List ShareTok) : Except Unit (List Nat) :=
  .ok (Ssss.unlock shares)

/-! ## salusd data model -/

/-- The internal error taxonomy relevant to the share store
(salusd/src/error.rs). `ReadError` stands for a propagated database I/O
error; `DecodeError` for a failed `ConfigVal::to_value` decode. -/
inductive StoreErr where
  | ReadError
  | CheckKeyNotFound
  | StoreNotUnlocked
  | DecodeError
deriving DecidableEq

/-- `libsalus::Response` (libsalus/src/message/mod.rs lines 102-118) at the
daemon level: share payloads are symbolic share tokens, value payloads are
plaintext bytes, error payloads are the internal error (the source sends
`err.to_string()`).  The source's variant name `AlreadyInitialiazed`
(sic) is kept. -/
inductive Response where
  | Error (e : StoreErr)
  | Success
  | Shares (shares : List ShareTok)
  | AlreadyInitialiazed
  | Threshold (t : Nat)
  | Value (v : Option (List Nat))
  | KeyNotFound
deriving DecidableEq

/-- The persisted redb database (db/mod.rs): the `salus_config` table
(`ConfigVal` payload bytes) and the `salus_store` table (`SalusVal`). -/
structure Db where
  config : List (String × List Nat)
  values : List (String × SalusVal)
deriving DecidableEq

/-- `ShareStore` (salusd/src/store/mod.rs lines 31-38): accumulated share
buffer, optional in-memory master key, database handle. -/
structure ShareStore where
  shares : List ShareTok
  key : Option (List Nat)
  redb : Db
deriving DecidableEq

/-- Outcome of a share-store operation that can panic
(`unlock`, store/mod.rs lines 168-213): a Rust panic, an `Err` return, or an
`Ok(response)` return. -/
inductive URes where
  | panic
  | err (e : StoreErr)
  | ok (r : Response)
deriving DecidableEq

/-- `true` exactly on the `Ok` outcome (`Result::is_ok` in the handler). -/
def URes.isOkR : URes → Bool
  | .ok _ => true
  | _ => false

namespace ShareStore

/-- `ShareStore::clear_shares` (store/mod.rs lines 42-44). -/
def clear_shares (s : ShareStore) : ShareStore :=
  { s with shares := [] }

/-- `ShareStore::clear_key` (store/mod.rs lines 46-48). -/
def clear_key (s : ShareStore) : ShareStore :=
  { s with key := none }

/-- `ShareStore::add_share` (store/mod.rs lines 50-52). -/
def add_share (s : ShareStore) (share : ShareTok) : ShareStore :=
  { s with shares := s.shares ++ [share] }

/-- `ShareStore::initialize` (store/mod.rs lines 54-76; `initialize` is a
Lean keyword, hence the name `initStore`): writes NUM_SHARES and THRESHOLD
into the config table (one `write_value` transaction each) and returns
`Success`. -/
def initStore (s : ShareStore) (numShares threshold : Nat) : ShareStore × Response :=
  let db1 := { s.redb with config := insertA s.redb.config "NUM_SHARES" (u8Encode numShares) }
  let db2 := { db1 with config := insertA db1.config "THRESHOLD" (u8Encode threshold) }
  ({ s with redb := db2 }, .Success)

/-- First committed write of `gen_shares` (store/mod.rs lines 133-138):
the CHECK_KEY row sealed under the fresh master key. -/
def genSharesWrite1 (db : Db) (key nonce : List Nat) : Db :=
  { db with values := insertA db.values "CHECK_KEY" { nonce := nonce, ciphertext := aeadSeal key nonce checkKeyBytes } }

/-- Second committed write of `gen_shares` (store/mod.rs lines 139-144):
INITIALIZED=true in the config table. -/
def genSharesWrite2 (db : Db) : Db :=
  { db with config := insertA db.config "INITIALIZED" (boolEncode true) }

/-- The sequence of database states committed by the write phase of
`gen_shares`: each `write_value` call (db/mod.rs lines 82-99) is its own
begin_write/commit, so the phase commits two states, CHECK_KEY first. -/
def genSharesCommits (db : Db) (key nonce : List Nat) : List Db :=
  [genSharesWrite1 db key nonce, genSharesWrite2 (genSharesWrite1 db key nonce)]

/-- The not-yet-initialized branch of `ShareStore::gen_shares`
(store/mod.rs lines 93-151): read NUM_SHARES / THRESHOLD (defaults 5 / 3,
decode failures propagate), split the fresh key into shares, seal
`"CHECK_KEY"` under it and commit the two writes. -/
def genSharesFresh (s : ShareStore) (freshKey nonce : List Nat) :
    ShareStore × Except StoreErr Response :=
  let numShares? : Except StoreErr Nat :=
    match lookupA s.redb.config "NUM_SHARES" with
    | some bs => match u8Decode bs with
      | some n => .ok n
      | none => .error .DecodeError
    | none => .ok 5
  let threshold? : Except StoreErr Nat :=
    match lookupA s.redb.config "THRESHOLD" with
    | some bs => match u8Decode bs with
      | some t => .ok t
      | none => .error .DecodeError
    | none => .ok 3
  match numShares?, threshold? with
  | .error e, _ => (s, .error e)
  | _, .error e => (s, .error e)
  | .ok numShares, .ok threshold =>
    let shares := Ssss.gen_shares numShares threshold freshKey
    let db2 := genSharesWrite2 (genSharesWrite1 s.redb freshKey nonce)
    ({ s with redb := db2 }, .ok (.Shares shares))

/-- `ShareStore::gen_shares` (store/mod.rs lines 78-152).  `freshKey` is the
randomly drawn 32-byte master key and `nonce` the random seal nonce (the
randomness is an input of the embedding).  Decode failures of stored config
values propagate as errors (`to_value::<..>()?`); absent config rows fall
back to 5 shares / threshold 3. -/
def gen_shares (s : ShareStore) (freshKey nonce : List Nat) :
    ShareStore × Except StoreErr Response :=
  match lookupA s.redb.config "INITIALIZED" with
  | some bs =>
      match boolDecode bs with
      | none => (s, .error .DecodeError)
      | some true => (s, .ok .AlreadyInitialiazed)
      | some false => genSharesFresh s freshKey nonce
  | none => genSharesFresh s freshKey nonce

/-- `ShareStore::get_threshold` (store/mod.rs lines 154-166): THRESHOLD from
config, default 3; all failures fall back to the default. -/
def get_threshold (s : ShareStore) : Nat :=
  match lookupA s.redb.config "THRESHOLD" with
  | some bs => match u8Decode bs with
    | some t => t
    | none => 3
  | none => 3

/-- `ShareStore::unlock` (store/mod.rs lines 168-213).  `readOk` is whether
the database read of CHECK_KEY succeeds (I/O).  The source structure:
combine the share buffer (`unlock_key`); on combine error just log; on a
database error or a missing CHECK_KEY the transaction body returns `Err`,
which the `?` on the `unlock_redb` call propagates *before*
`clear_shares()` runs; an AEAD open failure hits
`.unwrap()` and panics; on open success the plaintext is compared to
`"CHECK_KEY"` and on match the candidate key is promoted.  Paths that
return `Ok` clear the share buffer and answer `Success`. -/
def unlock (s : ShareStore) (readOk : Bool) : ShareStore × URes :=
  match unlock_key s.shares with
  | .error _ => ({ s with shares := [] }, .ok .Success)
  | .ok key =>
      if readOk then
        match lookupA s.redb.values "CHECK_KEY" with
        | none => (s, .err .CheckKeyNotFound)
        | some sv =>
            match aeadOpen key sv.nonce sv.ciphertext with
            | none => (s, .panic)
            | some pt =>
                if pt = checkKeyBytes then
                  ({ s with key := some key, shares := [] }, .ok .Success)
                else
                  ({ s with shares := [] }, .ok .Success)
      else
        (s, .err .ReadError)

/-- `ShareStore::store` (store/mod.rs lines 215-245): requires the master
key; seals the value under it with a fresh random `nonce` and writes the
row; otherwise fails with `StoreNotUnlocked` and performs no write. -/
def store (s : ShareStore) (k : String) (v : List Nat) (nonce : List Nat) :
    ShareStore × Except StoreErr Response :=
  match s.key with
  | some encKey =>
      ({ s with redb := { s.redb with
          values := insertA s.redb.values k { nonce := nonce, ciphertext := aeadSeal encKey nonce v } } },
        .ok .Success)
  | none => (s, .error .StoreNotUnlocked)

/-- Modelled from the spec: `ShareStore::read` is called by the handler
(handler/mod.rs line 160) but its definition is missing from the source
snapshot.  §4.4: "requires Unlocked. Look up k; if absent → KeyNotFound;
else open with master key and return the plaintext string. An
authentication failure is reported as a generic error." -/
def read (s : ShareStore) (k : String) : Except StoreErr Response :=
  match s.key with
  | none => .error .StoreNotUnlocked
  | some mkey =>
      match lookupA s.redb.values k with
      | none => .ok .KeyNotFound
      | some sv =>
          match aeadOpen mkey sv.nonce sv.ciphertext with
          | none => .error .ReadError
          | some pt => .ok (.Value (some pt))

end ShareStore

/-! ## salusd action handler (handler/mod.rs) -/

namespace ActionHandler

/-- `ActionHandler::unlock` (handler/mod.rs lines 115-142): run
`ShareStore::unlock`; iff the returned `Result` `is_ok`, spawn the
auto-lock timer task (`sleep(key_timeout)` then `clear_key`); an `Ok`
response is written back, an `Err` becomes `Response::Error`.  Result:
(new store state, timer armed?, response written — `none` models the
dispatcher dying in the panic before the timer spawn and the write). -/
def unlockHandler (s : ShareStore) (readOk : Bool) :
    ShareStore × Bool × Option Response :=
  match ShareStore.unlock s readOk with
  | (s2, .panic) => (s2, false, none)
  | (s2, .err e) => (s2, false, some (.Error e))
  | (s2, .ok r) => (s2, true, some r)

/-- `Action::GenShares` handling (handler/mod.rs lines 42-51): run
`ShareStore::initialize(N,T)` first — its response is discarded (the
`self.response` call is commented out, handler/mod.rs line 64) — then
`gen_shares`; a share-store error becomes `Response::Error`. -/
def genSharesHandler (s : ShareStore) (numShares threshold : Nat)
    (freshKey nonce : List Nat) : ShareStore × Response :=
  let s1 := (ShareStore.initStore s numShares threshold).1
  match ShareStore.gen_shares s1 freshKey nonce with
  | (s2, .ok r) => (s2, r)
  | (s2, .error e) => (s2, .Error e)

end ActionHandler

/-! ## Sequences of store operations (for the store/read round trip) -/

/-- Run a sequence of `store` operations; each element is
(key, plaintext, random nonce). -/
def applyStores (s : ShareStore) (ops : List (String × List Nat × List Nat)) :
    ShareStore :=
  ops.foldl (fun acc op => (ShareStore.store acc op.1 op.2.1 op.2.2).1) s

/-- The (plaintext, nonce) of the last store operation targeting key `k` in
the sequence, if any. -/
def lastStoreTo (k : String) (ops : List (String × List Nat × List Nat)) :
    Option (List Nat × List Nat) :=
  ops.foldl (fun acc op => if op.1 = k then some op.2 else acc) none

/-! ## Wire codec (libsalus/src/message/mod.rs with bincode standard config)

`Action` and `Response` derive bincode `Encode`/`Decode` and are framed with
`bincode::config::standard()`: variable-length integers, little-endian,
enum variants tagged by their index as a varint `u32`, `u8` written as one
raw byte, strings and vectors length-prefixed with a varint `u64`.  Rust
strings are modelled by their UTF-8 byte lists (bincode's UTF-8 validation
on decode is not modelled; it never fails on encoder output). -/

namespace Wire

/-- The UTF-8 bytes of a Rust `String`. -/
abbrev Str := List Nat

/-- `libsalus::Action` at the wire level (message/mod.rs lines 85-99). -/
inductive Action where
  | Unlock
  | Share (share : Str)
  | GenShares (numShares threshold : Nat)
  | Store (key value : Str)
  | Read (key : Str)
  | GetThreshold
deriving DecidableEq

/-- `libsalus::Response` at the wire level (message/mod.rs lines 101-118). -/
inductive Response where
  | Error (msg : Str)
  | Success
  | Shares (shares : List Str)
  | AlreadyInitialiazed
  | Threshold (t : Nat)
  | Value (v : Option Str)
  | KeyNotFound
deriving DecidableEq

/-- `k` little-endian bytes of `n`. -/
def toLE : Nat → Nat → List Nat
  | 0, _ => []
  | k + 1, n => n % 256 :: toLE k (n / 256)

/-- Read a little-endian byte list back into a number. -/
def fromLE : List Nat → Nat
  | [] => 0
  | b :: rest => b + 256 * fromLE rest

/-- bincode standard varint encoding of an unsigned integer: values below
251 are a single byte; then markers 251/252/253 introduce 2-, 4- and 8-byte
little-endian forms. -/
def encodeVarint (n : Nat) : List Nat :=
  if n < 251 then [n]
  else if n < 2 ^ 16 then 251 :: toLE 2 n
  else if n < 2 ^ 32 then 252 :: toLE 4 n
  else 253 :: toLE 8 n

/-- bincode standard varint decoding; returns the value and the remaining
bytes, or `none` on a truncated or invalid input. -/
def decodeVarint : List Nat → Option (Nat × List Nat)
  | [] => none
  | b :: rest =>
      if b < 251 then some (b, rest)
      else if b = 251 then
        if 2 ≤ rest.length then some (fromLE (rest.take 2), rest.drop 2) else none
      else if b = 252 then
        if 4 ≤ rest.length then some (fromLE (rest.take 4), rest.drop 4) else none
      else if b = 253 then
        if 8 ≤ rest.length then some (fromLE (rest.take 8), rest.drop 8) else none
      else none

/-- bincode encoding of a string: varint length then the UTF-8 bytes. -/
def encodeStr (s : Str) : List Nat :=
  encodeVarint s.length ++ s

/-- bincode decoding of a string. -/
def decodeStr (bytes : List Nat) : Option (Str × List Nat) :=
  match decodeVarint bytes with
  | none => none
  | some (len, rest) =>
      if len ≤ rest.length then some (rest.take len, rest.drop len) else none

/-- bincode encoding of a `Vec<String>`: varint count then each string. -/
def encodeStrList (l : List Str) : List Nat :=
  encodeVarint l.length ++ (l.map encodeStr).flatten

/-- Decode `n` consecutive strings. -/
def decodeStrs : Nat → List Nat → Option (List Str × List Nat)
  | 0, bytes => some ([], bytes)
  | n + 1, bytes =>
      match decodeStr bytes with
      | none => none
      | some (s, rest) =>
          match decodeStrs n rest with
          | none => none
          | some (l, rest2) => some (s :: l, rest2)

/-- bincode decoding of a `Vec<String>`. -/
def decodeStrList (bytes : List Nat) : Option (List Str × List Nat) :=
  match decodeVarint bytes with
  | none => none
  | some (n, rest) => decodeStrs n rest

/-- bincode encoding of an `Option<String>`: tag byte 0/1 then payload. -/
def encodeOptStr : Option Str → List Nat
  | none => [0]
  | some s => 1 :: encodeStr s

/-- bincode decoding of an `Option<String>`. -/
def decodeOptStr : List Nat → Option (Option Str × List Nat)
  | 0 :: rest => some (none, rest)
  | 1 :: rest =>
      match decodeStr rest with
      | none => none
      | some (s, rest2) => some (some s, rest2)
  | _ => none

/-- bincode encoding of `Action`: variant index as varint, then the fields
in declaration order (`u8` fields as raw bytes). -/
def encodeAction : Action → List Nat
  | .Unlock => [0]
  | .Share s => 1 :: encodeStr s
  | .GenShares n t => [2, n, t]
  | .Store k v => 3 :: (encodeStr k ++ encodeStr v)
  | .Read k => 4 :: encodeStr k
  | .GetThreshold => [5]

/-- bincode decoding of `Action`. -/
def decodeAction (bytes : List Nat) : Option (Action × List Nat) :=
  match decodeVarint bytes with
  | none => none
  | some (tag, rest) =>
      if tag = 0 then some (.Unlock, rest)
      else if tag = 1 then
        match decodeStr rest with
        | none => none
        | some (s, rest2) => some (.Share s, rest2)
      else if tag = 2 then
        match rest with
        | n :: t :: rest2 => some (.GenShares n t, rest2)
        | _ => none
      else if tag = 3 then
        match decodeStr rest with
        | none => none
        | some (k, rest2) =>
            match decodeStr rest2 with
            | none => none
            | some (v, rest3) => some (.Store k v, rest3)
      else if tag = 4 then
        match decodeStr rest with
        | none => none
        | some (k, rest2) => some (.Read k, rest2)
      else if tag = 5 then some (.GetThreshold, rest)
      else none

/-- bincode encoding of `Response`. -/
def encodeResponse : Response → List Nat
  | .Error m => 0 :: encodeStr m
  | .Success => [1]
  | .Shares l => 2 :: encodeStrList l
  | .AlreadyInitialiazed => [3]
  | .Threshold t => [4, t]
  | .Value v => 5 :: encodeOptStr v
  | .KeyNotFound => [6]

/-- bincode decoding of `Response`. -/
def decodeResponse (bytes : List Nat) : Option (Response × List Nat) :=
  match decodeVarint bytes with
  | none => none
  | some (tag, rest) =>
      if tag = 0 then
        match decodeStr rest with
        | none => none
        | some (m, rest2) => some (.Error m, rest2)
      else if tag = 1 then some (.Success, rest)
      else if tag = 2 then
        match decodeStrList rest with
        | none => none
        | some (l, rest2) => some (.Shares l, rest2)
      else if tag = 3 then some (.AlreadyInitialiazed, rest)
      else if tag = 4 then
        match rest with
        | t :: rest2 => some (.Threshold t, rest2)
        | _ => none
      else if tag = 5 then
        match decodeOptStr rest with
        | none => none
        | some (v, rest2) => some (.Value v, rest2)
      else if tag = 6 then some (.KeyNotFound, rest)
      else none

/-- A Rust value can only hold strings/vectors of length below `2^64`
(lengths are serialized as `u64`); the round trip is stated under this
well-formedness. -/
def wfStr (s : Str) : Prop :=
  s.length < 2 ^ 64

/-- Well-formedness of an `Action` value: every string field is a
representable Rust string. -/
def wfAction : Action → Prop
  | .Share s => wfStr s
  | .Store k v => wfStr k ∧ wfStr v
  | .Read k => wfStr k
  | _ => True

/-- Well-formedness of a `Response` value. -/
def wfResponse : Response → Prop
  | .Error m => wfStr m
  | .Shares l => l.length < 2 ^ 64 ∧ ∀ s ∈ l, wfStr s
  | .Value (some s) => wfStr s
  | _ => True

instance : DecidablePred wfStr := fun s => by
  unfold wfStr; infer_instance

instance : DecidablePred wfAction := fun a => by
  cases a <;> (unfold wfAction; infer_instance)

instance : DecidablePred wfResponse := fun r => by
  cases r with
  | Value v => cases v <;> (unfold wfResponse; infer_instance)
  | _ => (unfold wfResponse; infer_instance)

end Wire

/-! ## Reachable-state condition used by the unlock claims -/

/-- The CHECK_KEY row, when present, is an AEAD seal of the literal
`"CHECK_KEY"` bytes under some key with the row's own nonce — the shape in
which `gen_shares` writes it. -/
def ckWellFormed (s : ShareStore) : Prop :=
  ∀ sv, lookupA s.redb.values "CHECK_KEY" = some sv →
    ∃ k0, sv.ciphertext = aeadSeal k0 sv.nonce checkKeyBytes

/-! ## Concrete fixtures for witnesses and counterexamples -/

/-- A concrete 32-byte master key. -/
def kA : List Nat := List.replicate 32 7

/-- A concrete 12-byte nonce. -/
def nA : List Nat := List.replicate 12 3

/-- The CHECK_KEY row produced by `gen_shares` with key `kA`, nonce `nA`. -/
def svA : SalusVal := { nonce := nA, ciphertext := aeadSeal kA nA checkKeyBytes }

/-- An initialized store with a correct CHECK_KEY row and only two of the
three required shares in the buffer. -/
def cexC1 : ShareStore :=
  { shares := [⟨kA, 3, 0⟩, ⟨kA, 3, 1⟩], key := none,
    redb := { config := [("INITIALIZED", boolEncode true)], values := [("CHECK_KEY", svA)] } }

/-- A store with a non-empty share buffer whose database has no CHECK_KEY
row. -/
def cexC3 : ShareStore :=
  { shares := [⟨kA, 3, 0⟩], key := none, redb := { config := [], values := [] } }

/-- A locked store with a correct CHECK_KEY row and a full quorum of three
shares in the buffer. -/
def quorumStore : ShareStore :=
  { shares := [⟨kA, 3, 0⟩, ⟨kA, 3, 1⟩, ⟨kA, 3, 2⟩], key := none,
    redb := { config := [], values := [("CHECK_KEY", svA)] } }

/-- An already-initialized store persisting NUM_SHARES=5, THRESHOLD=3. -/
def initializedStore : ShareStore :=
  { shares := [], key := none,
    redb := { config := [("INITIALIZED", boolEncode true), ("NUM_SHARES", u8Encode 5),
                ("THRESHOLD", u8Encode 3)],
              values := [("CHECK_KEY", svA)] } }

/-- An unlocked store (master key `kA` in memory) over an empty database. -/
def unlockedStore : ShareStore :=
  { shares := [], key := some kA, redb := { config := [], values := [] } }

/-- A locked store with a full quorum of shares whose CHECK_KEY row was
overwritten by a client `Store("CHECK_KEY", [42])` issued while Unlocked
(`store` performs no reserved-key check, store/mod.rs lines 215-245): the
database is the one produced by that `store` call, the key was then
auto-cleared, and three valid shares were buffered. -/
def cexC2 : ShareStore :=
  { shares := [⟨kA, 3, 0⟩, ⟨kA, 3, 1⟩, ⟨kA, 3, 2⟩], key := none,
    redb := (ShareStore.store unlockedStore "CHECK_KEY" [42] nA).1.redb }

/-! ## Helper lemmas -/

theorem lookupA_insertA_self {α : Type} (t : List (String × α)) (k : String) (v : α) :
    lookupA (insertA t k v) k = some v := by
  induction t with
  | nil => simp [insertA, lookupA]
  | cons hd tl ih =>
      obtain ⟨k1, v1⟩ := hd
      by_cases h : k1 = k
      · subst h; simp [insertA, lookupA]
      · simp [insertA, lookupA, h, ih]

theorem lookupA_insertA_ne {α : Type} (t : List (String × α)) (k k2 : String) (v : α)
    (h : k ≠ k2) : lookupA (insertA t k v) k2 = lookupA t k2 := by
  induction t with
  | nil => simp [insertA, lookupA, h]
  | cons hd tl ih =>
      obtain ⟨k1, v1⟩ := hd
      by_cases h1 : k1 = k
      · subst h1; simp [insertA, lookupA, h]
      · by_cases h2 : k1 = k2 <;> simp [insertA, lookupA, h1, h2, ih, Ne.symm h]

theorem aeadOpen_aeadSeal (key nonce pt : List Nat) :
    aeadOpen key nonce (aeadSeal key nonce pt) = some pt := by
  have h1 : (key ++ nonce ++ pt).take key.length = key := by
    rw [List.append_assoc]; exact List.take_left key (nonce ++ pt)
  have h2 : (key ++ nonce ++ pt).drop key.length = nonce ++ pt := by
    rw [List.append_assoc]; exact List.drop_left key (nonce ++ pt)
  simp [aeadOpen, aeadSeal, h1, h2, List.take_left, List.drop_left]

theorem aeadOpen_seal_eq_some (k2 n2 k n pt pt2 : List Nat) :
    aeadOpen k2 n2 (aeadSeal k n pt) = some pt2 ↔ k2 = k ∧ n2 = n ∧ pt2 = pt := by
  constructor
  · intro h
    simp only [aeadOpen, aeadSeal] at h
    split_ifs at h with hc
    obtain ⟨h1, h2, h3, h4⟩ := hc
    rw [← h1, List.append_assoc, List.take_left] at h3
    subst h3
    rw [List.append_assoc, List.drop_left] at h4 h
    rw [← h2, List.take_left] at h4
    subst h4
    rw [List.drop_left] at h
    exact ⟨rfl, rfl, (Option.some.inj h).symm⟩
  · rintro ⟨rfl, rfl, rfl⟩
    exact aeadOpen_aeadSeal _ _ _

theorem aeadOpen_seal_wrong_key (k2 n2 k n pt : List Nat) (h : k2 ≠ k) :
    aeadOpen k2 n2 (aeadSeal k n pt) = none := by
  cases h2 : aeadOpen k2 n2 (aeadSeal k n pt) with
  | none => rfl
  | some pt2 => exact absurd ((aeadOpen_seal_eq_some k2 n2 k n pt pt2).1 h2).1 h

theorem genSharesFresh_key (s : ShareStore) (k n : List Nat) :
    (ShareStore.genSharesFresh s k n).1.key = s.key := by
  unfold ShareStore.genSharesFresh
  dsimp only
  split <;> rfl

theorem gen_shares_key (s : ShareStore) (k n : List Nat) :
    (ShareStore.gen_shares s k n).1.key = s.key := by
  unfold ShareStore.gen_shares
  split
  · split
    · rfl
    · rfl
    · exact genSharesFresh_key s k n
  · exact genSharesFresh_key s k n

/-! ## Claim C10 -/

/-- C10: `SalusVal::from_bytes` is partial: on inputs of length at least 12
it returns the value whose nonce is the first 12 bytes and whose ciphertext
is the remainder (inverting `as_bytes`); on inputs shorter than 12 bytes it
panics (modelled as `none`) rather than returning an error. -/
theorem c10_from_bytes_behavior :
    (∀ data : List Nat, 12 ≤ data.length →
        SalusVal.from_bytes data = some { nonce := data.take 12, ciphertext := data.drop 12 })
    ∧ (∀ v : SalusVal, v.nonce.length = 12 →
        SalusVal.from_bytes (SalusVal.as_bytes v) = some v)
    ∧ (∀ data : List Nat, data.length < 12 → SalusVal.from_bytes data = none) := by
  refine ⟨?_, ?_, ?_⟩
  · intro data h
    simp [SalusVal.from_bytes, h]
  · intro v h
    have hlen : 12 ≤ (SalusVal.as_bytes v).length := by
      simp [SalusVal.as_bytes]
      omega
    have h1 : (v.nonce ++ v.ciphertext).take 12 = v.nonce := List.take_left' h
    have h2 : (v.nonce ++ v.ciphertext).drop 12 = v.ciphertext := List.drop_left' h
    simp [SalusVal.from_bytes, SalusVal.as_bytes, hlen, h1, h2]
    omega
  · intro data h
    simp [SalusVal.from_bytes]
    omega

/-- Witness for C10 at concrete inputs. -/
theorem c10_witness :
    SalusVal.from_bytes (List.replicate 14 5)
        = some { nonce := (List.replicate 14 5).take 12, ciphertext := (List.replicate 14 5).drop 12 }
    ∧ SalusVal.from_bytes (SalusVal.as_bytes { nonce := List.replicate 12 1, ciphertext := [9] })
        = some { nonce := List.replicate 12 1, ciphertext := [9] }
    ∧ SalusVal.from_bytes [1, 2, 3] = none :=
  ⟨c10_from_bytes_behavior.1 _ (by decide),
   c10_from_bytes_behavior.2.1 _ (by decide),
   c10_from_bytes_behavior.2.2 _ (by decide)⟩

/-! ## Claim C6 -/

/-- C6: `store(k, v)` called while the store is Locked (no master key in
memory) returns the `StoreNotUnlocked` error and leaves the state — in
particular the value table — unchanged: no seal and no write happen. -/
theorem c6_store_locked (s : ShareStore) (k : String) (v nonce : List Nat)
    (h : s.key = none) :
    ShareStore.store s k v nonce = (s, .error .StoreNotUnlocked) := by
  unfold ShareStore.store
  rw [h]

/-- Witness for C6 at a concrete locked store. -/
theorem c6_witness :
    ShareStore.store { shares := [], key := none, redb := { config := [], values := [] } }
        "k" [1] [2]
      = ({ shares := [], key := none, redb := { config := [], values := [] } },
         .error .StoreNotUnlocked) :=
  c6_store_locked _ _ _ _ rfl

/-! ## Claim C8 -/

/-- C8: after `gen_shares` returns, the optional master-key field is still
absent — the freshly drawn key is used only to derive shares and seal
CHECK_KEY, never written to the in-memory state. -/
theorem c8_gen_shares_key_absent (s : ShareStore) (freshKey nonce : List Nat)
    (h : s.key = none) :
    (ShareStore.gen_shares s freshKey nonce).1.key = none := by
  rw [gen_shares_key, h]

/-- Witness for C8 on a concrete fresh store. -/
theorem c8_witness :
    (ShareStore.gen_shares { shares := [], key := none, redb := { config := [], values := [] } }
        kA nA).1.key = none :=
  c8_gen_shares_key_absent _ _ _ rfl

/-! ## Claim C5 -/

/-- C5 counterexample: the write phase of `gen_shares` commits twice — one
`write_value` transaction for the CHECK_KEY row and a second one for
INITIALIZED (db/mod.rs `write_value` opens and commits its own
transaction) — so the "single database transaction" part of the claim is
false at this concrete input. -/
theorem c5_counterexample :
    (ShareStore.genSharesCommits { config := [], values := [] } kA nA).length = 2 ∧
    ¬ (ShareStore.genSharesCommits { config := [], values := [] } kA nA).length = 1 := by
  decide

/-- C5 amended: `gen_shares` writes the CHECK_KEY row first and
INITIALIZED=true second, in two separate transactions; every database state
it commits contains a CHECK_KEY row in the value table, so INITIALIZED=true
implies the CHECK_KEY row exists at every commit point. -/
theorem c5_two_ordered_commits_preserve_invariant (db : Db) (k n : List Nat) (d : Db)
    (h : d ∈ ShareStore.genSharesCommits db k n) :
    (lookupA d.values "CHECK_KEY").isSome = true := by
  simp only [ShareStore.genSharesCommits, List.mem_cons, List.not_mem_nil, or_false] at h
  rcases h with h | h <;> subst h <;>
    simp [ShareStore.genSharesWrite1, ShareStore.genSharesWrite2, lookupA_insertA_self]

/-- Witness for the amended C5 at the first committed state. -/
theorem c5_witness :
    (lookupA (ShareStore.genSharesWrite1 { config := [], values := [] } kA nA).values
        "CHECK_KEY").isSome = true :=
  c5_two_ordered_commits_preserve_invariant { config := [], values := [] } kA nA _
    (by simp [ShareStore.genSharesCommits])

/-! ## Claim C1 -/

/-- C1 (code bug): with only two of the three required shares buffered, the
combined candidate key fails to authenticate the CHECK_KEY row, and
`unlock()` hits the `.unwrap()` on the failed `open_in_place`
(store/mod.rs lines 192-195) and panics instead of completing with
`Success`. -/
theorem c1_unlock_panics_on_auth_failure :
    cexC1.shares.length < 3 ∧ ShareStore.unlock cexC1 true = (cexC1, .panic) := by
  decide

/-! ## Claim C3 -/

/-- C3 counterexample: an unlock attempt that finds no CHECK_KEY row
returns the `CheckKeyNotFound` error through the `?` on the `unlock_redb`
call (store/mod.rs line 207) before `clear_shares()` runs, leaving the
share buffer non-empty. -/
theorem c3_counterexample :
    ShareStore.unlock cexC3 true = (cexC3, .err .CheckKeyNotFound) ∧ cexC3.shares ≠ [] := by
  decide

/-- C3 amended: the share buffer is cleared exactly on the unlock attempts
that return `Ok` (key promoted, or combine/open outcomes that still answer
`Success`); on a database read error, a missing CHECK_KEY row (early `Err`
return) or the AEAD-open panic, the buffer is left untouched. -/
theorem c3_buffer_cleared_iff_ok (s : ShareStore) (readOk : Bool) :
    (ShareStore.unlock s readOk).1.shares =
      if (ShareStore.unlock s readOk).2.isOkR then [] else s.shares := by
  unfold ShareStore.unlock unlock_key
  dsimp only
  cases readOk with
  | false => simp [URes.isOkR]
  | true =>
      cases h : lookupA s.redb.values "CHECK_KEY" with
      | none => simp [h, URes.isOkR]
      | some sv =>
          cases h2 : aeadOpen (Ssss.unlock s.shares) sv.nonce sv.ciphertext with
          | none => simp [h, h2, URes.isOkR]
          | some pt =>
              by_cases h3 : pt = checkKeyBytes <;> simp [h, h2, h3, URes.isOkR]

/-! ## Claim C2 -/

theorem unlock_state_not_ok (s : ShareStore) (readOk : Bool) :
    (ShareStore.unlock s readOk).2.isOkR = true ∨ (ShareStore.unlock s readOk).1 = s := by
  unfold ShareStore.unlock unlock_key
  dsimp only
  cases readOk with
  | false => right; simp
  | true =>
      cases h : lookupA s.redb.values "CHECK_KEY" with
      | none => right; simp [h]
      | some sv =>
          cases h2 : aeadOpen (Ssss.unlock s.shares) sv.nonce sv.ciphertext with
          | none => right; simp [h, h2]
          | some pt =>
              left
              by_cases h3 : pt = checkKeyBytes <;> simp [h, h2, h3, URes.isOkR]

theorem unlockHandler_state (s : ShareStore) (readOk : Bool) :
    (ActionHandler.unlockHandler s readOk).1 = (ShareStore.unlock s readOk).1 := by
  unfold ActionHandler.unlockHandler
  cases h : ShareStore.unlock s readOk with
  | mk s2 r => cases r <;> rfl

theorem unlockHandler_armed (s : ShareStore) (readOk : Bool) :
    (ActionHandler.unlockHandler s readOk).2.1 = (ShareStore.unlock s readOk).2.isOkR := by
  unfold ActionHandler.unlockHandler
  cases h : ShareStore.unlock s readOk with
  | mk s2 r => cases r <;> rfl

theorem unlockHandler_armed_iff_key_of_wf (s : ShareStore) (readOk : Bool)
    (hk : s.key = none) (hwf : ckWellFormed s) :
    (ActionHandler.unlockHandler s readOk).2.1 =
      ((ActionHandler.unlockHandler s readOk).1.key).isSome := by
  unfold ActionHandler.unlockHandler ShareStore.unlock unlock_key
  dsimp only
  cases readOk with
  | false => simp [hk]
  | true =>
      cases h : lookupA s.redb.values "CHECK_KEY" with
      | none => simp [h, hk]
      | some sv =>
          obtain ⟨k0, hct⟩ := hwf sv h
          simp only [eq_self_iff_true, if_true]
          rw [hct]
          by_cases hu : Ssss.unlock s.shares = k0
          · rw [hu, aeadOpen_aeadSeal]
            simp
          · have hnone : aeadOpen (Ssss.unlock s.shares) sv.nonce
                (aeadSeal k0 sv.nonce checkKeyBytes) = none :=
              aeadOpen_seal_wrong_key _ _ _ _ _ hu
            rw [hnone]
            simp [h, hk]

/-- C2 counterexample: the claim's "armed iff promoted" is false on a
reachable state.  `store` has no reserved-key check, so a client can issue
`Store("CHECK_KEY", [42])` while Unlocked, overwriting the sentinel row
with a seal of a different plaintext under the master key; after the key
is cleared, a full-quorum unlock opens that row successfully, takes the
plaintext-mismatch branch (store/mod.rs lines 201-203), returns
`Ok(Success)` without promoting any key — and the handler's `is_ok` check
(handler/mod.rs line 121) arms the timer anyway. -/
theorem c2_counterexample :
    (ActionHandler.unlockHandler cexC2 true).2.1 = true ∧
    (ActionHandler.unlockHandler cexC2 true).1.key = none ∧
    cexC2.key = none := by
  decide

/-- C2 amended: the handler arms the auto-lock timer iff `store.unlock()`
returned `Ok` (handler/mod.rs line 121).  A promoted key always arms the
timer, and as long as the CHECK_KEY row is the intact `gen_shares` seal of
the literal `"CHECK_KEY"`, arming coincides with promotion; but if the row
has been overwritten (e.g. by a `Store("CHECK_KEY", v)` issued while
Unlocked), an unlock can answer `Success` and arm the timer with no key
promoted. -/
theorem c2_timer_armed_iff_unlock_ok (s : ShareStore) (readOk : Bool)
    (hk : s.key = none) :
    ((ActionHandler.unlockHandler s readOk).2.1 = (ShareStore.unlock s readOk).2.isOkR)
    ∧ (((ActionHandler.unlockHandler s readOk).1.key).isSome = true →
        (ActionHandler.unlockHandler s readOk).2.1 = true)
    ∧ (ckWellFormed s →
        (ActionHandler.unlockHandler s readOk).2.1 =
          ((ActionHandler.unlockHandler s readOk).1.key).isSome) := by
  refine ⟨unlockHandler_armed s readOk, ?_, fun hwf =>
    unlockHandler_armed_iff_key_of_wf s readOk hk hwf⟩
  intro hp
  rcases unlock_state_not_ok s readOk with hok | hs
  · rw [unlockHandler_armed, hok]
  · rw [unlockHandler_state, hs, hk] at hp
    simp at hp

/-- Witness for the amended C2: a genuine quorum unlock on a concrete
store with an intact CHECK_KEY row arms the timer, promotes the key, and
all three conjuncts apply. -/
theorem c2_witness :
    ((ActionHandler.unlockHandler quorumStore true).2.1
        = (ShareStore.unlock quorumStore true).2.isOkR)
    ∧ (ActionHandler.unlockHandler quorumStore true).2.1 = true
    ∧ (ActionHandler.unlockHandler quorumStore true).2.1 =
        ((ActionHandler.unlockHandler quorumStore true).1.key).isSome :=
  ⟨(c2_timer_armed_iff_unlock_ok quorumStore true rfl).1,
   (c2_timer_armed_iff_unlock_ok quorumStore true rfl).2.1 (by decide),
   (c2_timer_armed_iff_unlock_ok quorumStore true rfl).2.2 (fun sv h => by
      rw [show lookupA quorumStore.redb.values "CHECK_KEY" = some svA from rfl] at h
      obtain rfl := Option.some.inj h
      exact ⟨kA, rfl⟩)⟩

/-! ## Claim C4 -/

/-- C4 counterexample: against an initialized database holding NUM_SHARES=5
and THRESHOLD=3, handling `GenShares(4,2)` answers `AlreadyInitialiazed`
but has already overwritten the config table (the handler runs
`initialize(N,T)` before `gen_shares` checks INITIALIZED,
handler/mod.rs lines 42-51), so "config table unchanged" fails. -/
theorem c4_counterexample :
    (ActionHandler.genSharesHandler initializedStore 4 2 kA nA).2 = .AlreadyInitialiazed ∧
    (ActionHandler.genSharesHandler initializedStore 4 2 kA nA).1.redb.config ≠
      initializedStore.redb.config := by
  decide

/-- C4 amended: on an initialized database the response is
`AlreadyInitialiazed` and the value table (and hence INITIALIZED and
CHECK_KEY) is unchanged, but the config table has NUM_SHARES and THRESHOLD
overwritten with the request's N and T by the unconditional
`initialize(N,T)` step. -/
theorem c4_already_initialized (s : ShareStore) (numShares threshold : Nat)
    (freshKey nonce : List Nat) (bs : List Nat)
    (h : lookupA s.redb.config "INITIALIZED" = some bs)
    (hb : boolDecode bs = some true) :
    (ActionHandler.genSharesHandler s numShares threshold freshKey nonce).2
        = .AlreadyInitialiazed ∧
    (ActionHandler.genSharesHandler s numShares threshold freshKey nonce).1.redb.values
        = s.redb.values ∧
    (ActionHandler.genSharesHandler s numShares threshold freshKey nonce).1.redb.config
        = insertA (insertA s.redb.config "NUM_SHARES" (u8Encode numShares))
            "THRESHOLD" (u8Encode threshold) := by
  have h1 : lookupA (insertA (insertA s.redb.config "NUM_SHARES" (u8Encode numShares))
      "THRESHOLD" (u8Encode threshold)) "INITIALIZED" = some bs := by
    rw [lookupA_insertA_ne _ _ _ _ (by decide), lookupA_insertA_ne _ _ _ _ (by decide)]
    exact h
  unfold ActionHandler.genSharesHandler ShareStore.initStore ShareStore.gen_shares
  dsimp only
  rw [h1]
  dsimp only
  rw [hb]
  exact ⟨rfl, rfl, rfl⟩

/-- Witness for the amended C4 at a concrete initialized store. -/
theorem c4_witness :
    (ActionHandler.genSharesHandler initializedStore 4 2 kA nA).2
        = .AlreadyInitialiazed ∧
    (ActionHandler.genSharesHandler initializedStore 4 2 kA nA).1.redb.values
        = initializedStore.redb.values ∧
    (ActionHandler.genSharesHandler initializedStore 4 2 kA nA).1.redb.config
        = insertA (insertA initializedStore.redb.config "NUM_SHARES" (u8Encode 4))
            "THRESHOLD" (u8Encode 2) :=
  c4_already_initialized initializedStore 4 2 kA nA (boolEncode true) rfl rfl

/-! ## Claim C7 -/

theorem store_key (s : ShareStore) (k : String) (v nonce : List Nat) :
    (ShareStore.store s k v nonce).1.key = s.key := by
  unfold ShareStore.store
  split <;> rfl

theorem applyStores_key (ops : List (String × List Nat × List Nat)) :
    ∀ s : ShareStore, (applyStores s ops).key = s.key := by
  induction ops with
  | nil => intro s; rfl
  | cons op rest ih =>
      intro s
      have hstep : applyStores s (op :: rest)
          = applyStores ((ShareStore.store s op.1 op.2.1 op.2.2).1) rest := rfl
      rw [hstep, ih, store_key]

theorem lastStoreTo_foldl (k : String) (ops : List (String × List Nat × List Nat)) :
    ∀ b : Option (List Nat × List Nat),
      ops.foldl (fun acc op => if op.1 = k then some op.2 else acc) b
        = (lastStoreTo k ops).elim b some := by
  induction ops with
  | nil => intro b; rfl
  | cons op rest ih =>
      intro b
      have hstep : (op :: rest).foldl (fun acc o => if o.1 = k then some o.2 else acc) b
          = rest.foldl (fun acc o => if o.1 = k then some o.2 else acc)
              (if op.1 = k then some op.2 else b) := rfl
      have hL : lastStoreTo k (op :: rest)
          = rest.foldl (fun acc o => if o.1 = k then some o.2 else acc)
              (if op.1 = k then some op.2 else none) := rfl
      rw [hstep, ih, hL, ih]
      cases hl : lastStoreTo k rest <;> by_cases hop : op.1 = k <;> simp [hop]

theorem lookup_applyStores (ops : List (String × List Nat × List Nat)) :
    ∀ (s : ShareStore) (mkey : List Nat) (k : String), s.key = some mkey →
      lookupA (applyStores s ops).redb.values k
        = (lastStoreTo k ops).elim (lookupA s.redb.values k)
            (fun vn => some { nonce := vn.2, ciphertext := aeadSeal mkey vn.2 vn.1 }) := by
  induction ops with
  | nil => intro s mkey k hk; rfl
  | cons op rest ih =>
      intro s mkey k hk
      obtain ⟨k1, v1, n1⟩ := op
      have hs1 : (ShareStore.store s k1 v1 n1).1
          = { s with redb := { s.redb with
              values := insertA s.redb.values k1
                { nonce := n1, ciphertext := aeadSeal mkey n1 v1 } } } := by
        unfold ShareStore.store
        rw [hk]
      have hstep : applyStores s ((k1, v1, n1) :: rest)
          = applyStores ((ShareStore.store s k1 v1 n1).1) rest := rfl
      rw [hstep, ih _ mkey k (by rw [store_key]; exact hk), hs1]
      have hL : lastStoreTo k ((k1, v1, n1) :: rest)
          = (lastStoreTo k rest).elim (if k1 = k then some (v1, n1) else none) some := by
        have hfold : lastStoreTo k ((k1, v1, n1) :: rest)
            = rest.foldl (fun acc o => if o.1 = k then some o.2 else acc)
                (if k1 = k then some (v1, n1) else none) := rfl
        rw [hfold, lastStoreTo_foldl]
      rw [hL]
      by_cases hop : k1 = k
      · subst hop
        cases hl : lastStoreTo k1 rest <;> simp [hl, lookupA_insertA_self]
      · cases hl : lastStoreTo k rest <;>
          simp [hl, hop, lookupA_insertA_ne _ _ _ _ hop]

/-- C7: while Unlocked with master key `mkey`, after any sequence of `store`
operations, `read(k)` returns exactly the plaintext of the last store to
`k`, byte for byte; and `read` of a key never stored (and absent from the
initial value table) returns `KeyNotFound`.  (`ShareStore::read` is
modelled from the spec, see its definition.) -/
theorem c7_read_returns_last_store (s : ShareStore) (mkey : List Nat)
    (ops : List (String × List Nat × List Nat)) (k : String)
    (hk : s.key = some mkey) :
    (∀ v n, lastStoreTo k ops = some (v, n) →
        ShareStore.read (applyStores s ops) k = .ok (.Value (some v)))
    ∧ (lastStoreTo k ops = none → lookupA s.redb.values k = none →
        ShareStore.read (applyStores s ops) k = .ok .KeyNotFound) := by
  have hkey : (applyStores s ops).key = some mkey := by rw [applyStores_key, hk]
  have hl := lookup_applyStores ops s mkey k hk
  constructor
  · intro v n hlast
    rw [hlast] at hl
    simp only [Option.elim] at hl
    unfold ShareStore.read
    rw [hkey]
    dsimp only
    rw [hl]
    dsimp only
    rw [aeadOpen_aeadSeal]
  · intro hlast hbase
    rw [hlast] at hl
    simp only [Option.elim] at hl
    rw [hbase] at hl
    unfold ShareStore.read
    rw [hkey]
    dsimp only
    rw [hl]

/-- Witness for C7: a concrete store/read round trip. -/
theorem c7_witness :
    ShareStore.read (applyStores unlockedStore [("hello", [1, 2], nA)]) "hello"
      = .ok (.Value (some [1, 2])) :=
  (c7_read_returns_last_store unlockedStore kA [("hello", [1, 2], nA)] "hello" rfl).1
    [1, 2] nA (by decide)

/-! ## Claim C9 -/

theorem toLE_length (k : Nat) : ∀ n : Nat, (Wire.toLE k n).length = k := by
  induction k with
  | zero => intro n; rfl
  | succ k ih => intro n; simp [Wire.toLE, ih]

theorem fromLE_toLE (k : Nat) : ∀ n : Nat, n < 256 ^ k → Wire.fromLE (Wire.toLE k n) = n := by
  induction k with
  | zero =>
      intro n h
      simp only [pow_zero, Nat.lt_one_iff] at h
      subst h
      rfl
  | succ k ih =>
      intro n h
      have hdiv : n / 256 < 256 ^ k := by
        rw [Nat.div_lt_iff_lt_mul (by norm_num)]
        rw [pow_succ] at h
        exact h
      show Wire.fromLE (n % 256 :: Wire.toLE k (n / 256)) = n
      simp only [Wire.fromLE, ih (n / 256) hdiv]
      omega

theorem decodeVarint_encodeVarint (n : Nat) (h : n < 2 ^ 64) (r : List Nat) :
    Wire.decodeVarint (Wire.encodeVarint n ++ r) = some (n, r) := by
  have h64 : n < 18446744073709551616 := by norm_num at h; exact h
  unfold Wire.encodeVarint
  by_cases h1 : n < 251
  · simp [h1, Wire.decodeVarint]
  · by_cases h2 : n < 65536
    · have hn : n < 256 ^ 2 := by norm_num; omega
      have hlen : 2 ≤ (Wire.toLE 2 n ++ r).length := by
        rw [List.length_append, toLE_length]; omega
      have htake : (Wire.toLE 2 n ++ r).take 2 = Wire.toLE 2 n :=
        List.take_left' (toLE_length 2 n)
      have hdrop : (Wire.toLE 2 n ++ r).drop 2 = r :=
        List.drop_left' (toLE_length 2 n)
      simp [h1, h2, Wire.decodeVarint, hlen, htake, hdrop, fromLE_toLE 2 n hn, toLE_length, Nat.le_add_right]
    · by_cases h3 : n < 4294967296
      · have hn : n < 256 ^ 4 := by norm_num; omega
        have hlen : 4 ≤ (Wire.toLE 4 n ++ r).length := by
          rw [List.length_append, toLE_length]; omega
        have htake : (Wire.toLE 4 n ++ r).take 4 = Wire.toLE 4 n :=
          List.take_left' (toLE_length 4 n)
        have hdrop : (Wire.toLE 4 n ++ r).drop 4 = r :=
          List.drop_left' (toLE_length 4 n)
        simp [h1, h2, h3, Wire.decodeVarint, hlen, htake, hdrop, fromLE_toLE 4 n hn, toLE_length, Nat.le_add_right]
      · have hn : n < 256 ^ 8 := by norm_num; omega
        have hlen : 8 ≤ (Wire.toLE 8 n ++ r).length := by
          rw [List.length_append, toLE_length]; omega
        have htake : (Wire.toLE 8 n ++ r).take 8 = Wire.toLE 8 n :=
          List.take_left' (toLE_length 8 n)
        have hdrop : (Wire.toLE 8 n ++ r).drop 8 = r :=
          List.drop_left' (toLE_length 8 n)
        simp [h1, h2, h3, Wire.decodeVarint, hlen, htake, hdrop, fromLE_toLE 8 n hn, toLE_length, Nat.le_add_right]

theorem decodeStr_encodeStr (s : Wire.Str) (hs : Wire.wfStr s) (r : List Nat) :
    Wire.decodeStr (Wire.encodeStr s ++ r) = some (s, r) := by
  unfold Wire.encodeStr Wire.decodeStr
  rw [List.append_assoc, decodeVarint_encodeVarint s.length hs (s ++ r)]
  have hle : s.length ≤ (s ++ r).length := by
    rw [List.length_append]; omega
  simp [hle, List.take_left, List.drop_left]

theorem decodeStrs_encode (l : List Wire.Str) (hl : ∀ s ∈ l, Wire.wfStr s) (r : List Nat) :
    Wire.decodeStrs l.length ((l.map Wire.encodeStr).flatten ++ r) = some (l, r) := by
  induction l with
  | nil => simp [Wire.decodeStrs]
  | cons s rest ih =>
      simp only [List.map_cons, List.flatten_cons, List.length_cons, List.append_assoc]
      show Wire.decodeStrs (rest.length + 1) _ = _
      unfold Wire.decodeStrs
      rw [decodeStr_encodeStr s (hl s (by simp)) _]
      dsimp only
      rw [ih (fun x hx => hl x (by simp [hx]))]

theorem decodeStrList_encodeStrList (l : List Wire.Str) (h1 : l.length < 2 ^ 64)
    (h2 : ∀ s ∈ l, Wire.wfStr s) (r : List Nat) :
    Wire.decodeStrList (Wire.encodeStrList l ++ r) = some (l, r) := by
  unfold Wire.encodeStrList Wire.decodeStrList
  rw [List.append_assoc, decodeVarint_encodeVarint l.length h1]
  exact decodeStrs_encode l h2 r

theorem decodeOptStr_encodeOptStr (v : Option Wire.Str)
    (hv : ∀ s, v = some s → Wire.wfStr s) (r : List Nat) :
    Wire.decodeOptStr (Wire.encodeOptStr v ++ r) = some (v, r) := by
  cases v with
  | none => rfl
  | some s =>
      show Wire.decodeOptStr (1 :: (Wire.encodeStr s ++ r)) = some (some s, r)
      unfold Wire.decodeOptStr
      dsimp only
      rw [decodeStr_encodeStr s (hv s rfl) r]

theorem decodeAction_encodeAction (a : Wire.Action) (ha : Wire.wfAction a) (r : List Nat) :
    Wire.decodeAction (Wire.encodeAction a ++ r) = some (a, r) := by
  cases a with
  | Unlock => simp [Wire.encodeAction, Wire.decodeAction, Wire.decodeVarint]
  | Share s =>
      have hs : Wire.wfStr s := ha
      show Wire.decodeAction (1 :: (Wire.encodeStr s ++ r)) = some (.Share s, r)
      unfold Wire.decodeAction
      rw [show Wire.decodeVarint (1 :: (Wire.encodeStr s ++ r))
            = some (1, Wire.encodeStr s ++ r) from by simp [Wire.decodeVarint]]
      simp only []
      norm_num
      rw [decodeStr_encodeStr s hs r]
  | GenShares n t =>
      show Wire.decodeAction (2 :: n :: t :: r) = some (.GenShares n t, r)
      unfold Wire.decodeAction
      rw [show Wire.decodeVarint (2 :: n :: t :: r) = some (2, n :: t :: r) from by
        simp [Wire.decodeVarint]]
      norm_num
  | Store k v =>
      obtain ⟨hk, hv⟩ := ha
      show Wire.decodeAction (3 :: (Wire.encodeStr k ++ Wire.encodeStr v ++ r))
          = some (.Store k v, r)
      unfold Wire.decodeAction
      rw [show Wire.decodeVarint (3 :: (Wire.encodeStr k ++ Wire.encodeStr v ++ r))
            = some (3, Wire.encodeStr k ++ Wire.encodeStr v ++ r) from by
        simp [Wire.decodeVarint]]
      norm_num
      rw [decodeStr_encodeStr k hk (Wire.encodeStr v ++ r)]
      dsimp only
      rw [decodeStr_encodeStr v hv r]
  | Read k =>
      have hk : Wire.wfStr k := ha
      show Wire.decodeAction (4 :: (Wire.encodeStr k ++ r)) = some (.Read k, r)
      unfold Wire.decodeAction
      rw [show Wire.decodeVarint (4 :: (Wire.encodeStr k ++ r))
            = some (4, Wire.encodeStr k ++ r) from by simp [Wire.decodeVarint]]
      norm_num
      rw [decodeStr_encodeStr k hk r]
  | GetThreshold => simp [Wire.encodeAction, Wire.decodeAction, Wire.decodeVarint]

theorem decodeResponse_encodeResponse (resp : Wire.Response) (hr : Wire.wfResponse resp)
    (r : List Nat) :
    Wire.decodeResponse (Wire.encodeResponse resp ++ r) = some (resp, r) := by
  cases resp with
  | Error m =>
      have hm : Wire.wfStr m := hr
      show Wire.decodeResponse (0 :: (Wire.encodeStr m ++ r)) = some (.Error m, r)
      unfold Wire.decodeResponse
      rw [show Wire.decodeVarint (0 :: (Wire.encodeStr m ++ r))
            = some (0, Wire.encodeStr m ++ r) from by simp [Wire.decodeVarint]]
      norm_num
      rw [decodeStr_encodeStr m hm r]
  | Success => simp [Wire.encodeResponse, Wire.decodeResponse, Wire.decodeVarint]
  | Shares l =>
      obtain ⟨h1, h2⟩ := hr
      show Wire.decodeResponse (2 :: (Wire.encodeStrList l ++ r)) = some (.Shares l, r)
      unfold Wire.decodeResponse
      rw [show Wire.decodeVarint (2 :: (Wire.encodeStrList l ++ r))
            = some (2, Wire.encodeStrList l ++ r) from by simp [Wire.decodeVarint]]
      norm_num
      rw [decodeStrList_encodeStrList l h1 h2 r]
  | AlreadyInitialiazed =>
      simp [Wire.encodeResponse, Wire.decodeResponse, Wire.decodeVarint]
  | Threshold t =>
      show Wire.decodeResponse (4 :: t :: r) = some (.Threshold t, r)
      unfold Wire.decodeResponse
      rw [show Wire.decodeVarint (4 :: t :: r) = some (4, t :: r) from by
        simp [Wire.decodeVarint]]
      norm_num
  | Value v =>
      have hv : ∀ s, v = some s → Wire.wfStr s := by
        intro s hs
        subst hs
        exact hr
      show Wire.decodeResponse (5 :: (Wire.encodeOptStr v ++ r)) = some (.Value v, r)
      unfold Wire.decodeResponse
      rw [show Wire.decodeVarint (5 :: (Wire.encodeOptStr v ++ r))
            = some (5, Wire.encodeOptStr v ++ r) from by simp [Wire.decodeVarint]]
      norm_num
      rw [decodeOptStr_encodeOptStr v hv r]
  | KeyNotFound => simp [Wire.encodeResponse, Wire.decodeResponse, Wire.decodeVarint]

/-- C9: the deterministic bincode framing of `Action` and `Response` round
trips — decoding an encoded value yields the value back (for every value
whose strings and share lists have representable `u64` lengths). -/
theorem c9_codec_roundtrip :
    (∀ a : Wire.Action, Wire.wfAction a →
        Wire.decodeAction (Wire.encodeAction a) = some (a, []))
    ∧ (∀ resp : Wire.Response, Wire.wfResponse resp →
        Wire.decodeResponse (Wire.encodeResponse resp) = some (resp, [])) := by
  constructor
  · intro a ha
    have h := decodeAction_encodeAction a ha []
    rwa [List.append_nil] at h
  · intro resp hresp
    have h := decodeResponse_encodeResponse resp hresp []
    rwa [List.append_nil] at h

/-- Witness for C9 at concrete `Action` and `Response` values. -/
theorem c9_witness :
    Wire.decodeAction (Wire.encodeAction (Wire.Action.Store [104] [5, 6]))
        = some (Wire.Action.Store [104] [5, 6], [])
    ∧ Wire.decodeResponse (Wire.encodeResponse (Wire.Response.Shares [[1], [2, 3]]))
        = some (Wire.Response.Shares [[1], [2, 3]], []) :=
  ⟨c9_codec_roundtrip.1 _ (by constructor <;> decide),
   c9_codec_roundtrip.2 _ (by constructor <;> decide)⟩
